import Mathlib

/-!
Shallow embedding of the rcv-cli image-to-WebP batch converter
(src/main.rs) and proofs about its conversion pipeline.

The file system is a map from path strings to byte contents; the external
codec collaborators (the decoder of the `image` crate and the encoder of
the `webp` crate) are abstract parameters: the program only composes them.
Rust `u64` arithmetic is modeled with release-mode (wrapping) semantics;
the same overflow panics when debug assertions are on.  A `.unwrap()` on a
failed operation is modeled as the `Outcome.crash` constructor: a process
abort, distinct from a returned `Err`.
-/

/-- Bytes of a file, one natural number per byte. -/
abbrev Bytes := List Nat

/-- The file system: path strings to file contents; `none` means the path
does not exist or is unreadable, so `fs::metadata` and reads fail there. -/
abbrev Fs := String → Option Bytes

/-- External codec collaborators: `image::open`-style decoding,
`webp::Encoder::from_image`, and `Encoder::encode`, abstracted over the
in-memory image type `I`, the encoder type `E` and the quality type `Q`. -/
structure Codec (I E Q : Type) where
  decode : Bytes → Option I
  fromImage : I → Option E
  encode : E → Q → Bytes

/-- A directory entry as yielded by `fs::read_dir`: its path and whether it
is a regular file. -/
structure DirEntry where
  path : String
  isFile : Bool
deriving DecidableEq

/-- Ambient I/O behavior: `readDir dir` is `none` when the directory itself
cannot be listed, otherwise the entry iterator, where an `Except.error`
element is an I/O error from `entry?`; `writeOk p` says whether `fs::write`
at path `p` succeeds. -/
structure Env where
  readDir : String → Option (List (Except Unit DirEntry))
  writeOk : String → Bool

/-- Outcome of a pipeline piece: a returned value, a returned error
(`anyhow::Error` via `?`), or a process-aborting panic from `.unwrap()`. -/
inductive Outcome (α : Type) where
  | ok : α → Outcome α
  | err : Outcome α
  | crash : String → Outcome α

/-- Split a character list at the slash separator; same behavior as
`String.splitOn "/"`, implemented by structural recursion. -/
def splitSlashAux : List Char → List Char → List String
  | [], cur => [String.mk cur.reverse]
  | c :: rest, cur =>
    if c = '/' then String.mk cur.reverse :: splitSlashAux rest []
    else splitSlashAux rest (c :: cur)

/-- Components of a Unix path string: chunks between separators; empty
chunks and `"."` are not Normal components (mirrors `std::path`). -/
def pathComponents (p : String) : List String :=
  (splitSlashAux p.toList []).filter (fun c => c != "" && c != ".")

/-- `Path::file_name`: the final Normal component, `none` when the path is
empty, a root, or ends in `..`. -/
def rustFileName (p : String) : Option String :=
  match (pathComponents p).getLast? with
  | none => none
  | some c => if c = ".." then none else some c

/-- Index of the last dot at position 1 or later in a file name; this is
Rust `split_file_at_dot`, where a leading dot does not begin an
extension. -/
def lastDotIdx (cs : List Char) : Option Nat :=
  (List.range cs.length).foldl
    (fun acc i => if 1 ≤ i ∧ cs.get? i = some '.' then some i else acc) none

/-- `Path::file_stem` of a plain file name: everything before the last dot
at position 1 or later; `".."` is special-cased whole, as in Rust. -/
def rustFileStem (name : String) : String :=
  if name = ".." then name
  else
    match lastDotIdx name.toList with
    | none => name
    | some i => String.mk (name.toList.take i)

/-- `Path::join` with a relative, single-component right side. -/
def joinPath (dir name : String) : String :=
  if dir = "" then name
  else if dir.toList.getLast? = some '/' then dir ++ name
  else dir ++ "/" ++ name

/-- The output path of `process_image`:
`output_path.join(file_name).with_extension("webp")`.  `file_name` is one
Normal component, so `with_extension` rewrites exactly that component to
its file stem followed by `.webp`. -/
def outputPathFor (output_path file_name : String) : String :=
  joinPath output_path (rustFileStem file_name ++ ".webp")

/-- The `u64` modulus. -/
def U64MOD : Nat := 2 ^ 64

/-- `u64` subtraction, release-mode wrapping semantics. -/
def wrappingSub64 (a b : Nat) : Nat :=
  (a % U64MOD + (U64MOD - b % U64MOD)) % U64MOD

/-- IEEE-754 double values as needed by the percentage computation.
Special values are modeled exactly; finite values are idealized as exact
rationals (rounding does not affect the division-by-zero behavior under
study); signed zero is not distinguished. -/
inductive F64 where
  | nan : F64
  | posInf : F64
  | negInf : F64
  | finite : ℚ → F64
deriving DecidableEq

/-- IEEE subtraction on the model. -/
def F64.sub : F64 → F64 → F64
  | .nan, _ => .nan
  | _, .nan => .nan
  | .finite a, .finite b => .finite (a - b)
  | .posInf, .negInf => .posInf
  | .negInf, .posInf => .negInf
  | .posInf, .posInf => .nan
  | .negInf, .negInf => .nan
  | .posInf, .finite _ => .posInf
  | .negInf, .finite _ => .negInf
  | .finite _, .posInf => .negInf
  | .finite _, .negInf => .posInf

/-- IEEE division on the model; dividing a nonzero finite value by zero
yields a signed infinity, and zero by zero yields NaN. -/
def F64.div : F64 → F64 → F64
  | .nan, _ => .nan
  | _, .nan => .nan
  | .finite a, .finite b =>
    if b = 0 then (if a = 0 then .nan else if a < 0 then .negInf else .posInf)
    else .finite (a / b)
  | .posInf, .finite b => if b < 0 then .negInf else .posInf
  | .negInf, .finite b => if b < 0 then .posInf else .negInf
  | .finite _, .posInf => .finite 0
  | .finite _, .negInf => .finite 0
  | .posInf, .posInf => .nan
  | .posInf, .negInf => .nan
  | .negInf, .posInf => .nan
  | .negInf, .negInf => .nan

/-- IEEE multiplication on the model. -/
def F64.mul : F64 → F64 → F64
  | .nan, _ => .nan
  | _, .nan => .nan
  | .finite a, .finite b => .finite (a * b)
  | .posInf, .finite b => if b = 0 then .nan else if b < 0 then .negInf else .posInf
  | .finite a, .posInf => if a = 0 then .nan else if a < 0 then .negInf else .posInf
  | .negInf, .finite b => if b = 0 then .nan else if b < 0 then .posInf else .negInf
  | .finite a, .negInf => if a = 0 then .nan else if a < 0 then .posInf else .negInf
  | .posInf, .posInf => .posInf
  | .negInf, .negInf => .posInf
  | .posInf, .negInf => .negInf
  | .negInf, .posInf => .negInf

/-- Rust `as u64` on an `f64`: saturating cast, NaN to zero, truncation
toward zero for finite values (which are nonnegative when truncated). -/
def F64.toU64sat : F64 → Nat
  | .nan => 0
  | .negInf => 0
  | .posInf => U64MOD - 1
  | .finite q =>
    if q < 0 then 0
    else if (U64MOD : ℚ) ≤ q then U64MOD - 1
    else q.num.toNat / q.den

/-- The percentage computation of src/main.rs lines 80 to 81:
`((file_size as f64 - new_file_size as f64) / file_size as f64) * 100`. -/
def percentageChange (file_size new_file_size : Nat) : F64 :=
  F64.mul
    (F64.div (F64.sub (F64.finite (file_size : ℚ)) (F64.finite (new_file_size : ℚ)))
      (F64.finite (file_size : ℚ)))
    (F64.finite 100)

/-- `fs::write`: create or overwrite the file at `p` with contents `bs`. -/
def fsWrite (fs : Fs) (p : String) (bs : Bytes) : Fs :=
  fun q => if q = p then some bs else fs q

/-- What `process_image` prints and measures for one successful file. -/
structure Report where
  fileName : String
  outPath : String
  origSize : Nat
  newSize : Nat
  savedKB : Nat
  percentU64 : Nat
deriving DecidableEq

/-- Embedding of `process_image` (src/main.rs lines 59 to 89).  The
`Outcome.crash` branches are the `.unwrap()` calls on `fs::metadata` of the
input, `fs::write`, and `fs::metadata` of the output, which panic rather
than return an error; decode failure and encoder-creation failure are
returned errors. -/
def process_image {I E Q : Type} (C : Codec I E Q) (env : Env) (fs : Fs)
    (input_file : String) (output_path : String) (quality : Q) :
    Outcome (Fs × Report) :=
  match fs input_file with
  | none => Outcome.crash "input metadata unwrap"
  | some inputBytes =>
    let file_size := inputBytes.length
    match C.decode inputBytes with
    | none => Outcome.err
    | some img =>
      let file_name := (rustFileName input_file).getD "default"
      match C.fromImage img with
      | none => Outcome.err
      | some encoder =>
        let webp := C.encode encoder quality
        let outPath := outputPathFor output_path file_name
        if env.writeOk outPath then
          let fs2 := fsWrite fs outPath webp
          match fs2 outPath with
          | none => Outcome.crash "output metadata unwrap"
          | some outBytes =>
            let new_file_size := outBytes.length
            Outcome.ok (fs2,
              { fileName := file_name
                outPath := outPath
                origSize := file_size
                newSize := new_file_size
                savedKB := wrappingSub64 file_size new_file_size / 1024
                percentU64 := F64.toU64sat (percentageChange file_size new_file_size) })
        else Outcome.crash "write unwrap"

/-- Embedding of `is_image_file`: `image::open(file).is_ok()`, the decode
probe; a missing or undecodable file is a failed probe. -/
def is_image_file {I E Q : Type} (C : Codec I E Q) (fs : Fs) (p : String) : Bool :=
  ((fs p).bind C.decode).isSome

/-- The entry loop of `get_files_in_dir`: an entry I/O error propagates via
`?`; an `ok` entry is kept when it is a regular file and passes the decode
probe. -/
def collectFiles {I E Q : Type} (C : Codec I E Q) (fs : Fs) :
    List (Except Unit DirEntry) → List String → Except Unit (List String)
  | [], acc => Except.ok acc
  | Except.error _ :: _, _ => Except.error ()
  | Except.ok ent :: rest, acc =>
    if ent.isFile && is_image_file C fs ent.path
    then collectFiles C fs rest (acc ++ [ent.path])
    else collectFiles C fs rest acc

/-- Embedding of `get_files_in_dir` (src/main.rs lines 91 to 104). -/
def get_files_in_dir {I E Q : Type} (C : Codec I E Q) (env : Env) (fs : Fs)
    (dir : String) : Except Unit (List String) :=
  match env.readDir dir with
  | none => Except.error ()
  | some entries => collectFiles C fs entries []

/-- The conversion loop of `process_directory`: a returned per-file error is
printed and skipped; a panic aborts everything. -/
def convertFiles {I E Q : Type} (C : Codec I E Q) (env : Env)
    (output_path : String) (quality : Q) : List String → Fs → Outcome Fs
  | [], fs => Outcome.ok fs
  | f :: rest, fs =>
    match process_image C env fs f output_path quality with
    | Outcome.ok (fs2, _) => convertFiles C env output_path quality rest fs2
    | Outcome.err => convertFiles C env output_path quality rest fs
    | Outcome.crash msg => Outcome.crash msg

/-- Embedding of `process_directory` (src/main.rs lines 110 to 123). -/
def process_directory {I E Q : Type} (C : Codec I E Q) (env : Env) (fs : Fs)
    (dir output_path : String) (quality : Q) : Outcome Fs :=
  match get_files_in_dir C env fs dir with
  | Except.error _ => Outcome.err
  | Except.ok files => convertFiles C env output_path quality files fs

/-- The three ways `main` can dispatch. -/
inductive Mode where
  | usageExit : Mode
  | batch : String → Mode
  | single : String → Mode
deriving DecidableEq

/-- The dispatch of `main` (src/main.rs lines 32 to 54): usage-exit when
neither argument is set; otherwise batch mode whenever `--directory` is
set, and single-file mode only when it is not (`args.input_file.unwrap()`
is modeled by `getD`, safe because that branch has `input_file` set). -/
def dispatch (input_file directory : Option String) : Mode :=
  if input_file.isNone && directory.isNone then Mode.usageExit
  else
    match directory with
    | some d => Mode.batch d
    | none => Mode.single (input_file.getD "")

/-- A codec whose decode always succeeds and whose encoder emits one byte;
used to instantiate the model on concrete runs. -/
def unitCodec : Codec Unit Unit Unit :=
  { decode := fun _ => some (), fromImage := fun _ => some (), encode := fun _ _ => [7] }

/-- A codec that decodes only the one-byte file `[1]`. -/
def probeCodec : Codec Unit Unit Unit :=
  { decode := fun bs => if bs = [1] then some () else none
    fromImage := fun _ => some ()
    encode := fun _ _ => [7] }

/-- A codec whose encoder inflates every image to 200 bytes. -/
def inflateCodec : Codec Unit Unit Unit :=
  { decode := fun _ => some (), fromImage := fun _ => some ()
    encode := fun _ _ => List.replicate 200 0 }

/-- An environment with no readable directories and succeeding writes. -/
def okEnv : Env := { readDir := fun _ => none, writeOk := fun _ => true }

/-- Batch environment for the write-failure run: directory `d` lists two
regular files, and every write fails. -/
def c1Env : Env :=
  { readDir := fun d =>
      if d = "d" then some [Except.ok ⟨"d/a", true⟩, Except.ok ⟨"d/b", true⟩] else none
    writeOk := fun _ => false }

/-- Two decodable one-byte image files inside directory `d`. -/
def c1Fs : Fs :=
  fun p => if p = "d/a" then some [1] else if p = "d/b" then some [1] else none

/-- Directory `d` lists a decodable image `d/a` and a non-image `d/t`. -/
def c5Env : Env :=
  { readDir := fun d =>
      if d = "d" then some [Except.ok ⟨"d/a", true⟩, Except.ok ⟨"d/t", true⟩] else none
    writeOk := fun _ => true }

/-- A probe-passing file `d/a` and a probe-failing file `d/t`. -/
def c5Fs : Fs :=
  fun p => if p = "d/a" then some [1] else if p = "d/t" then some [9] else none

/-- Directory `d` yields one good entry and then an entry I/O error. -/
def c10Env : Env :=
  { readDir := fun d =>
      if d = "d" then some [Except.ok ⟨"d/a", true⟩, Except.error ()] else none
    writeOk := fun _ => true }

/-- A 100-byte input image. -/
def c2Fs : Fs := fun p => if p = "in.jpg" then some (List.replicate 100 0) else none

/-- A two-byte input image named `a.png`. -/
def exFs : Fs := fun p => if p = "a.png" then some [1, 2] else none

/-- The paths the `get_files_in_dir` loop keeps out of an entry list. -/
def goodPaths {I E Q : Type} (C : Codec I E Q) (fs : Fs)
    (entries : List (Except Unit DirEntry)) : List String :=
  entries.filterMap (fun x =>
    match x with
    | Except.ok d => if d.isFile && is_image_file C fs d.path then some d.path else none
    | Except.error _ => none)

/-- The report of a successful conversion outcome. -/
def okReport : Outcome (Fs × Report) → Option Report
  | Outcome.ok (_, r) => some r
  | Outcome.err => none
  | Outcome.crash _ => none

/-- Writing a file makes it readable at its own path. -/
theorem fsWrite_self (fs : Fs) (p : String) (bs : Bytes) : fsWrite fs p bs p = some bs := by
  simp [fsWrite]

/-- Writing a file never removes an existing file. -/
theorem fsWrite_exists (fs : Fs) (p : String) (bs : Bytes) (r : String)
    (h : ∃ c, fs r = some c) : ∃ c, fsWrite fs p bs r = some c := by
  by_cases hrp : r = p
  · exact ⟨bs, by simp [fsWrite, hrp]⟩
  · obtain ⟨c, hc⟩ := h
    exact ⟨c, by simp [fsWrite, hrp, hc]⟩

/-- Inversion of a successful `process_image` run: the input existed, the
output path is the joined and rewritten name, the resulting file system is
the old one plus the encoded bytes at the output path, and the measured
output size is the encoded length. -/
theorem process_image_ok_inv {I E Q : Type} (C : Codec I E Q) (env : Env) (fs : Fs)
    (i o : String) (q : Q) (fs2 : Fs) (r : Report)
    (h : process_image C env fs i o q = Outcome.ok (fs2, r)) :
    ∃ bs enc, fs i = some bs ∧
      r.outPath = outputPathFor o ((rustFileName i).getD "default") ∧
      fs2 = fsWrite fs r.outPath (C.encode enc q) ∧
      fs2 r.outPath = some (C.encode enc q) ∧
      r.newSize = (C.encode enc q).length ∧
      r.origSize = bs.length := by
  simp only [process_image] at h
  split at h
  · simp at h
  rename_i bs hbs
  split at h
  · simp at h
  rename_i img himg
  split at h
  · simp at h
  rename_i enc henc
  split at h
  case isFalse => simp at h
  case isTrue hwt =>
    split at h
    · simp at h
    rename_i outBytes hout
    rw [Outcome.ok.injEq, Prod.mk.injEq] at h
    obtain ⟨hfs, hrep⟩ := h
    subst hfs
    subst hrep
    rw [fsWrite_self] at hout
    injection hout with hw2
    refine ⟨bs, enc, hbs, rfl, rfl, fsWrite_self _ _ _, ?_, rfl⟩
    rw [hw2]

/-- A successful conversion only adds files: every path readable before is
readable after. -/
theorem process_image_ok_preserves {I E Q : Type} (C : Codec I E Q) (env : Env) (fs : Fs)
    (i o : String) (q : Q) (fs2 : Fs) (r : Report)
    (h : process_image C env fs i o q = Outcome.ok (fs2, r)) (p : String)
    (hp : ∃ c, fs p = some c) : ∃ c, fs2 p = some c := by
  obtain ⟨bs, enc, _, _, hfs2, _, _, _⟩ := process_image_ok_inv C env fs i o q fs2 r h
  rw [hfs2]
  exact fsWrite_exists _ _ _ _ hp

/-- When the input file exists and writes succeed, `process_image` never
reaches one of its `.unwrap()` panics. -/
theorem process_image_no_crash {I E Q : Type} (C : Codec I E Q) (env : Env) (fs : Fs)
    (i o : String) (q : Q) (hw : ∀ p, env.writeOk p = true) (bs : Bytes)
    (hbs : fs i = some bs) (m : String) :
    process_image C env fs i o q ≠ Outcome.crash m := by
  simp only [process_image, hbs]
  rcases hde : C.decode bs with _ | img
  · simp [hde]
  · rcases hfi : C.fromImage img with _ | enc
    · simp [hde, hfi]
    · simp [hde, hfi, hw, fsWrite]

/-- When every listed file exists and writes succeed, the conversion loop
runs to completion: per-file decode and encode failures are skipped. -/
theorem convertFiles_ok {I E Q : Type} (C : Codec I E Q) (env : Env)
    (o : String) (q : Q) (hw : ∀ p, env.writeOk p = true) :
    ∀ (files : List String) (fs : Fs), (∀ f ∈ files, ∃ c, fs f = some c) →
    ∃ fs2, convertFiles C env o q files fs = Outcome.ok fs2 := by
  intro files
  induction files with
  | nil => exact fun fs _ => ⟨fs, rfl⟩
  | cons f rest ih =>
    intro fs hf
    obtain ⟨bs, hbs⟩ := hf f (List.mem_cons_self f rest)
    rcases hpi : process_image C env fs f o q with ⟨fs2, r⟩ | _ | m
    · obtain ⟨fs3, h3⟩ := ih fs2 (fun g hg =>
        process_image_ok_preserves C env fs f o q fs2 r hpi g (hf g (List.mem_cons_of_mem f hg)))
      exact ⟨fs3, by simp [convertFiles, hpi, h3]⟩
    · obtain ⟨fs3, h3⟩ := ih fs (fun g hg => hf g (List.mem_cons_of_mem f hg))
      exact ⟨fs3, by simp [convertFiles, hpi, h3]⟩
    · exact absurd hpi (process_image_no_crash C env fs f o q hw bs hbs m)

/-- Every file kept by the entry loop passed the decode probe. -/
theorem collectFiles_ok_probe {I E Q : Type} (C : Codec I E Q) (fs : Fs) :
    ∀ (entries : List (Except Unit DirEntry)) (acc files : List String),
    collectFiles C fs entries acc = Except.ok files →
    (∀ f ∈ acc, is_image_file C fs f = true) →
    ∀ f ∈ files, is_image_file C fs f = true := by
  intro entries
  induction entries with
  | nil =>
    intro acc files h hacc
    simp only [collectFiles, Except.ok.injEq] at h
    subst h
    exact hacc
  | cons x rest ih =>
    intro acc files h hacc
    cases x with
    | error u => simp [collectFiles] at h
    | ok d =>
      simp only [collectFiles] at h
      split at h
      · rename_i hc
        refine ih _ _ h ?_
        intro f hfm
        rcases List.mem_append.mp hfm with hl | hr
        · exact hacc f hl
        · rw [List.mem_singleton.mp hr]
          have hc2 : d.isFile = true ∧ is_image_file C fs d.path = true := by simpa using hc
          exact hc2.2
      · exact ih _ _ h hacc

/-- Every file returned by `get_files_in_dir` passed the decode probe. -/
theorem get_files_ok_probe {I E Q : Type} (C : Codec I E Q) (env : Env) (fs : Fs)
    (dir : String) (files : List String)
    (h : get_files_in_dir C env fs dir = Except.ok files) :
    ∀ f ∈ files, is_image_file C fs f = true := by
  unfold get_files_in_dir at h
  cases henv : env.readDir dir with
  | none => rw [henv] at h; simp at h
  | some entries =>
    rw [henv] at h
    exact collectFiles_ok_probe C fs entries [] files h (by simp)

/-- When no entry yields an I/O error, the entry loop returns exactly the
accumulator followed by the kept paths. -/
theorem collectFiles_no_error_eq {I E Q : Type} (C : Codec I E Q) (fs : Fs) :
    ∀ (entries : List (Except Unit DirEntry)) (acc : List String),
    (∀ x ∈ entries, ∃ d, x = Except.ok d) →
    collectFiles C fs entries acc = Except.ok (acc ++ goodPaths C fs entries) := by
  intro entries
  induction entries with
  | nil => intro acc _; simp [collectFiles, goodPaths]
  | cons x rest ih =>
    intro acc hok
    obtain ⟨d, rfl⟩ := hok x (List.mem_cons_self x rest)
    have hrest : ∀ y ∈ rest, ∃ e, y = Except.ok e :=
      fun y hy => hok y (List.mem_cons_of_mem _ hy)
    by_cases hc : (d.isFile && is_image_file C fs d.path) = true
    · have hc2 : d.isFile = true ∧ is_image_file C fs d.path = true := by simpa using hc
      simp [collectFiles, hc, goodPaths, List.filterMap_cons, hc2, ih (acc ++ [d.path]) hrest]
    · have hc2 : ¬(d.isFile = true ∧ is_image_file C fs d.path = true) := by simpa using hc
      simp [collectFiles, hc, goodPaths, List.filterMap_cons, hc2, ih acc hrest]

/-- An entry I/O error anywhere in the listing makes the entry loop return
that error. -/
theorem collectFiles_error_of_mem {I E Q : Type} (C : Codec I E Q) (fs : Fs) :
    ∀ (entries : List (Except Unit DirEntry)) (acc : List String),
    Except.error () ∈ entries → collectFiles C fs entries acc = Except.error () := by
  intro entries
  induction entries with
  | nil => intro acc h; simp at h
  | cons x rest ih =>
    intro acc h
    cases x with
    | error u => cases u; rfl
    | ok d =>
      have hrest : Except.error () ∈ rest := by
        rcases List.mem_cons.mp h with h1 | h1
        · exact absurd h1 (by simp)
        · exact h1
      unfold collectFiles
      split
      · exact ih _ hrest
      · exact ih _ hrest

/-- C1 (amended): when all writes succeed, the batch run never panics, and
it returns an error exactly when discovery (`get_files_in_dir`) fails;
per-file decode and encode failures are skipped and never fail or abort the
batch.  The amendment is forced because an input whose metadata read fails
or whose output write fails hits an `.unwrap()` panic that aborts the whole
batch (see the counterexample). -/
theorem batch_isolation_amended {I E Q : Type} (C : Codec I E Q) (env : Env) (fs : Fs)
    (dir out : String) (q : Q) (hw : ∀ p, env.writeOk p = true) :
    (∀ m, process_directory C env fs dir out q ≠ Outcome.crash m) ∧
    (process_directory C env fs dir out q = Outcome.err ↔
      get_files_in_dir C env fs dir = Except.error ()) := by
  unfold process_directory
  cases hg : get_files_in_dir C env fs dir with
  | error u =>
    cases u
    simp
  | ok files =>
    have hex : ∀ f ∈ files, ∃ c, fs f = some c := by
      intro f hf
      have hp := get_files_ok_probe C env fs dir files hg f hf
      unfold is_image_file at hp
      cases hc : fs f with
      | none => rw [hc] at hp; simp at hp
      | some c => exact ⟨c, rfl⟩
    obtain ⟨fs2, h2⟩ := convertFiles_ok C env out q hw files fs hex
    simp [h2]

/-- C1 witness: a batch over an unreadable directory with succeeding writes
instantiates the amended isolation theorem. -/
theorem batch_isolation_amended_witness :
    (∀ m, process_directory unitCodec okEnv (fun _ => none) "d" "o" () ≠ Outcome.crash m) ∧
    (process_directory unitCodec okEnv (fun _ => none) "d" "o" () = Outcome.err ↔
      get_files_in_dir unitCodec okEnv (fun _ => none) "d" = Except.error ()) :=
  batch_isolation_amended unitCodec okEnv (fun _ => none) "d" "o" () (fun _ => rfl)

/-- C1 counterexample: directory listing succeeds, yet a write failure on
the first file panics (`fs::write(..).unwrap()`) and aborts the whole
batch, so a single file conversion failure does abort the remaining
files, contrary to the claim. -/
theorem batch_write_failure_aborts :
    c1Env.readDir "d" ≠ none ∧
    process_directory unitCodec c1Env c1Fs "d" "out" () = Outcome.crash "write unwrap" :=
  ⟨by simp [c1Env], rfl⟩

/-- C2: a 100-byte input whose encoded output is 200 bytes still converts
successfully, but the printed KB delta `(file_size - new_file_size) / 1024`
is computed in `u64` and wraps around to `(2 ^ 64 - 100) / 1024` (release
semantics; with debug assertions the same subtraction panics), so the
size-delta computation is not well-defined when the encoded file is
larger. -/
theorem savings_wraparound :
    okReport (process_image inflateCodec okEnv c2Fs "in.jpg" "out" ()) =
      some ⟨"in.jpg", "out/in.webp", 100, 200, (2 ^ 64 - 100) / 1024, 0⟩ := by
  have h : okReport (process_image inflateCodec okEnv c2Fs "in.jpg" "out" ()) =
      some ⟨"in.jpg", "out/in.webp", 100, 200, wrappingSub64 100 200 / 1024,
        F64.toU64sat (percentageChange 100 200)⟩ := rfl
  rw [h]
  norm_num [percentageChange, F64.sub, F64.div, F64.mul, F64.toU64sat,
    wrappingSub64, U64MOD]

/-- C3 counterexample: a missing input file makes `process_image` panic at
`fs::metadata(..).unwrap()` (a process abort), not return a recoverable
`InputUnreadable` error. -/
theorem missing_input_returns_panic :
    process_image unitCodec okEnv (fun _ => none) "nope.jpg" "out" () =
      Outcome.crash "input metadata unwrap" := rfl

/-- C3 (amended): for every codec, environment and quality, an input path
that does not exist or is inaccessible aborts `process_image` with the
metadata `.unwrap()` panic, before any decode, encode, or write is
attempted (the conclusion is the same for every codec and environment). -/
theorem missing_input_aborts {I E Q : Type} (C : Codec I E Q) (env : Env) (fs : Fs)
    (i o : String) (q : Q) (h : fs i = none) :
    process_image C env fs i o q = Outcome.crash "input metadata unwrap" := by
  simp [process_image, h]

/-- C3 witness: the amended theorem applied to a concrete empty file
system. -/
theorem missing_input_aborts_witness :
    process_image unitCodec okEnv (fun _ => none) "x.jpg" "o" () =
      Outcome.crash "input metadata unwrap" :=
  missing_input_aborts unitCodec okEnv (fun _ => none) "x.jpg" "o" () rfl

/-- C4: the output of every successful conversion is placed in the output
directory under the input file name with its final extension replaced by
`.webp`; concretely `photo.jpg` maps to `out/photo.webp`, `a.b.jpg` keeps
its earlier dots and maps to `out/a.b.webp`, and paths with no extractable
file name (a root or the empty path) fall back to the fixed name `default`
rather than failing. -/
theorem output_name_derivation :
    (∀ (I E Q : Type) (C : Codec I E Q) (env : Env) (fs : Fs) (i o : String) (q : Q)
        (fs2 : Fs) (r : Report), process_image C env fs i o q = Outcome.ok (fs2, r) →
        r.outPath = joinPath o (rustFileStem ((rustFileName i).getD "default") ++ ".webp")) ∧
    outputPathFor "out" ((rustFileName "photo.jpg").getD "default") = "out/photo.webp" ∧
    outputPathFor "out" ((rustFileName "a.b.jpg").getD "default") = "out/a.b.webp" ∧
    outputPathFor "out" ((rustFileName "/").getD "default") = "out/default.webp" ∧
    outputPathFor "out" ((rustFileName "").getD "default") = "out/default.webp" := by
  refine ⟨?_, by decide, by decide, by decide, by decide⟩
  intro I E Q C env fs i o q fs2 r h
  obtain ⟨bs, enc, _, hout, _⟩ := process_image_ok_inv C env fs i o q fs2 r h
  exact hout

/-- C4 witness: the derivation rule applied to a concrete successful run on
`a.png`. -/
theorem output_name_derivation_witness :
    (⟨"a.png", "o/a.webp", 2, 1, wrappingSub64 2 1 / 1024,
        F64.toU64sat (percentageChange 2 1)⟩ : Report).outPath =
      joinPath "o" (rustFileStem ((rustFileName "a.png").getD "default") ++ ".webp") :=
  output_name_derivation.1 Unit Unit Unit unitCodec okEnv exFs "a.png" "o" ()
    (fsWrite exFs "o/a.webp" [7]) _ rfl

/-- C5: for a readable directory whose entries all enumerate without I/O
errors, discovery succeeds and returns exactly the entries that are regular
files and pass the decode probe; a probe failure excludes the entry without
failing the call, and membership depends on nothing but the regular-file
flag and the probe. -/
theorem discovery_membership {I E Q : Type} (C : Codec I E Q) (env : Env) (fs : Fs)
    (dir : String) (entries : List (Except Unit DirEntry))
    (hdir : env.readDir dir = some entries)
    (hok : ∀ x ∈ entries, ∃ d, x = Except.ok d) :
    ∃ l, get_files_in_dir C env fs dir = Except.ok l ∧
      ∀ p, (p ∈ l ↔ ∃ d : DirEntry, Except.ok d ∈ entries ∧ d.path = p ∧
        d.isFile = true ∧ is_image_file C fs p = true) := by
  refine ⟨goodPaths C fs entries, ?_, ?_⟩
  · unfold get_files_in_dir
    rw [hdir]
    simpa using collectFiles_no_error_eq C fs entries [] hok
  · intro p
    unfold goodPaths
    rw [List.mem_filterMap]
    constructor
    · rintro ⟨x, hx, hfx⟩
      cases x with
      | error u => simp at hfx
      | ok d =>
        simp only at hfx
        split at hfx
        · rename_i hc
          have hc2 : d.isFile = true ∧ is_image_file C fs d.path = true := by simpa using hc
          have hp : d.path = p := by injection hfx
          subst hp
          exact ⟨d, hx, rfl, hc2.1, hc2.2⟩
        · simp at hfx
    · rintro ⟨d, hd, rfl, hfile, hprobe⟩
      exact ⟨Except.ok d, hd, by simp [hfile, hprobe]⟩

/-- C5 witness: a directory with one decodable image and one non-image file
instantiates the membership theorem. -/
theorem discovery_membership_witness :
    ∃ l, get_files_in_dir probeCodec c5Env c5Fs "d" = Except.ok l ∧
      ∀ p, (p ∈ l ↔ ∃ d : DirEntry,
        Except.ok d ∈ ([Except.ok ⟨"d/a", true⟩, Except.ok ⟨"d/t", true⟩] :
          List (Except Unit DirEntry)) ∧
        d.path = p ∧ d.isFile = true ∧ is_image_file probeCodec c5Fs p = true) :=
  discovery_membership probeCodec c5Env c5Fs "d"
    [Except.ok ⟨"d/a", true⟩, Except.ok ⟨"d/t", true⟩] rfl
    (by
      intro x hx
      rcases List.mem_cons.mp hx with rfl | hx2
      · exact ⟨_, rfl⟩
      · rcases List.mem_cons.mp hx2 with rfl | h3
        · exact ⟨_, rfl⟩
        · simp at h3)

/-- C6: for every successful conversion, the reported encoded size equals
the byte length of the output file as it exists on disk after the run. -/
theorem roundtrip_size_accounting {I E Q : Type} (C : Codec I E Q) (env : Env) (fs : Fs)
    (i o : String) (q : Q) (fs2 : Fs) (r : Report)
    (h : process_image C env fs i o q = Outcome.ok (fs2, r)) :
    ∃ bs, fs2 r.outPath = some bs ∧ r.newSize = bs.length := by
  obtain ⟨bs, enc, _, _, _, hself, hnew, _⟩ := process_image_ok_inv C env fs i o q fs2 r h
  exact ⟨C.encode enc q, hself, hnew⟩

/-- C6 witness: the accounting theorem applied to a concrete successful
run. -/
theorem roundtrip_size_accounting_witness :
    ∃ bs, fsWrite exFs "o/a.webp" [7]
        ((⟨"a.png", "o/a.webp", 2, 1, wrappingSub64 2 1 / 1024,
          F64.toU64sat (percentageChange 2 1)⟩ : Report).outPath) = some bs ∧
      (⟨"a.png", "o/a.webp", 2, 1, wrappingSub64 2 1 / 1024,
        F64.toU64sat (percentageChange 2 1)⟩ : Report).newSize = bs.length :=
  roundtrip_size_accounting unitCodec okEnv exFs "a.png" "o" ()
    (fsWrite exFs "o/a.webp" [7]) _ rfl

/-- C7 counterexample: with a zero-byte original the code performs the
division anyway; the quotient is negative infinity (NaN when the encoded
size is also zero), which then flows into the saturating cast, so no
explicit guard exists. -/
theorem zero_size_division_unguarded :
    percentageChange 0 200 = F64.negInf ∧ F64.toU64sat (percentageChange 0 200) = 0 := by
  norm_num [percentageChange, F64.sub, F64.div, F64.mul, F64.toU64sat]

/-- C7 (amended): there is no explicit zero-size guard; the unguarded
division produces NaN or negative infinity, and only the saturating
`as u64` cast makes the printed percentage come out as 0 for every encoded
size. -/
theorem zero_size_percent_saturates (n : Nat) :
    F64.toU64sat (percentageChange 0 n) = 0 := by
  rcases n with _ | m
  · norm_num [percentageChange, F64.sub, F64.div, F64.mul, F64.toU64sat]
  · have hm : (0:ℚ) ≤ (m:ℚ) := Nat.cast_nonneg m
    have h1 : (-1 : ℚ) + -(m:ℚ) ≠ 0 := by intro h; linarith
    have h2 : (-1 : ℚ) < (m:ℚ) := by linarith
    norm_num [percentageChange, F64.sub, F64.div, F64.mul, F64.toU64sat, h1, h2]

/-- C7 witness: the saturation fact at a concrete encoded size. -/
theorem zero_size_percent_saturates_witness :
    F64.toU64sat (percentageChange 0 5) = 0 :=
  zero_size_percent_saturates 5

/-- C9: when both arguments are set the program dispatches to batch mode
and the input file argument is ignored, and single-file mode is reached
only when the directory argument is absent. -/
theorem mode_precedence :
    (∀ f d : String, dispatch (some f) (some d) = Mode.batch d) ∧
    (∀ (f d : Option String) (x : String), dispatch f d = Mode.single x →
      d = none ∧ f = some x) := by
  constructor
  · intro f d; rfl
  · intro f d x h
    cases d with
    | some dd => simp [dispatch] at h
    | none =>
      cases f with
      | none => simp [dispatch] at h
      | some ff =>
        simp [dispatch] at h
        exact ⟨rfl, by rw [h]⟩

/-- C9 witness: the precedence theorem at concrete arguments. -/
theorem mode_precedence_witness :
    dispatch (some "a") (some "d") = Mode.batch "d" ∧
      ((none : Option String) = none ∧ (some "a" : Option String) = some "a") :=
  ⟨mode_precedence.1 "a" "d", mode_precedence.2 (some "a") none "a" rfl⟩

/-- C10: an I/O error on any single directory entry makes discovery return
that error, and the batch call fails before converting any file. -/
theorem entry_error_aborts_batch {I E Q : Type} (C : Codec I E Q) (env : Env)
    (fs : Fs) (dir out : String) (q : Q) (entries : List (Except Unit DirEntry))
    (hdir : env.readDir dir = some entries) (he : Except.error () ∈ entries) :
    get_files_in_dir C env fs dir = Except.error () ∧
      process_directory C env fs dir out q = Outcome.err := by
  have hg : get_files_in_dir C env fs dir = Except.error () := by
    unfold get_files_in_dir
    rw [hdir]
    exact collectFiles_error_of_mem C fs entries [] he
  refine ⟨hg, ?_⟩
  unfold process_directory
  rw [hg]

/-- C10 witness: a directory with one valid entry followed by an entry
error instantiates the propagation theorem. -/
theorem entry_error_aborts_batch_witness :
    get_files_in_dir unitCodec c10Env c1Fs "d" = Except.error () ∧
      process_directory unitCodec c10Env c1Fs "d" "out" () = Outcome.err :=
  entry_error_aborts_batch unitCodec c10Env c1Fs "d" "out" ()
    [Except.ok ⟨"d/a", true⟩, Except.error ()] rfl (by simp)
